import Mathlib

/-!
# Verification of the `nanoprogress` progress-bar core

Shallow embedding of `src/lib.rs` (crate `nanoprogress`): a single-line
terminal progress bar.  The mutable `ProgressBarState` behind the
`Arc<Mutex<...>>` is modelled as a Lean structure; each public operation
(`tick`, `set_message`, `success`, `fail`) becomes a pure function from a
state to a pair of the new state and the string of bytes the operation
attempts to write to the sink.  Since the mutex serializes every operation,
a concurrent history is a sequence of these functions applied in some order.

Machine-integer conventions: `current` and `total` are Rust `u64`, embedded
as `Nat` together with the explicit saturation bound `2 ^ 64 - 1` where the
code saturates (`u64::saturating_add`).  The rendering ratio in the source
is computed in `f64`, and that computation is NOT exact: the `u64 → f64`
casts, the division and the multiplication each round to the nearest
binary64 value.  The render arithmetic is therefore embedded through an
explicit model of IEEE-754 binary64 rounding over `ℚ` (`f64round`:
round-to-nearest, ties-to-even, on the normal range of doubles, which
contains every value the render pipeline produces — all are in
`[2^-64, 2^64]` or zero).  The exact-rational values that the spec's
wording prescribes (`round(current/total·width)`, `⌊current/total·100⌋`)
are kept as separate, clearly spec-side definitions (`filledCount`,
`percentVal`) for comparison; the program-side values are `filledCountF`
and `percentValF`, and the two pairs provably differ (`render_format_cex`,
`render_no_underflow_cex`).
-/

/-- `u64::MAX` = 2^64 - 1. -/
def U64MAX : Nat := 2 ^ 64 - 1

/-- `u64::saturating_add` from `tick` (`src/lib.rs:268`). -/
def saturating_add (a b : Nat) : Nat := min (a + b) U64MAX

/-- Round a rational to the nearest integer, ties to even — the rounding
applied to the scaled significand of every IEEE-754 binary64 operation. -/
def rne (x : ℚ) : ℤ :=
  if x - ⌊x⌋ < 1 / 2 then ⌊x⌋
  else if (1 : ℚ) / 2 < x - ⌊x⌋ then ⌊x⌋ + 1
  else if ⌊x⌋ % 2 = 0 then ⌊x⌋ else ⌊x⌋ + 1

/-- Round a nonnegative rational to the nearest IEEE-754 binary64 value
(round to nearest, ties to even): the significand is scaled to
`[2^52, 2^53)` and rounded with `rne`.  Faithful on the normal range of
doubles; every value produced by the render pipeline (casts of `u64`,
their quotients and products with the width) lies there or is zero.
Nonpositive inputs (only ever 0 here) map to 0. -/
def f64round (q : ℚ) : ℚ :=
  if q ≤ 0 then 0
  else (rne (q * 2 ^ (52 - Int.log 2 q)) : ℚ) * 2 ^ (Int.log 2 q - 52)

/-- The `u64 as f64` / `usize as f64` cast: correctly rounded. -/
def f64ofNat (n : Nat) : ℚ := f64round n

/-- Correctly rounded binary64 division. -/
def f64div (a b : ℚ) : ℚ := f64round (a / b)

/-- Correctly rounded binary64 multiplication. -/
def f64mul (a b : ℚ) : ℚ := f64round (a * b)

/-- `f64::round`: round half away from zero.  Its argument here is always
nonnegative, where that is `⌊q + 1/2⌋`; the integral result is itself a
binary64 value (integers below `2^53` are representable, and above `2^52`
the input is already integral), so no re-rounding occurs. -/
def f64roundHalfAway (q : ℚ) : ℚ := (⌊q + 1 / 2⌋ : ℚ)

/-- The `as u64` / `as usize` cast of a (nonnegative, finite) binary64
value: truncate toward zero and saturate at the integer range, here
`[0, 2^64 - 1]` (a 64-bit `usize` target is assumed, as in the crate's
test suite). -/
def f64toNat (q : ℚ) : Nat := min (Int.toNat ⌊q⌋) U64MAX

/-- `BarConfig` (`src/lib.rs:33`): width in characters, fill and empty glyphs. -/
structure BarConfig where
  width : Nat
  fill : Char
  empty : Char
deriving Repr, DecidableEq

/-- `BarConfig::default` (`src/lib.rs:39`). -/
def BarConfig.default : BarConfig := { width := 40, fill := '█', empty := '░' }

/-- `ProgressBarState` (`src/lib.rs:49`) minus the boxed writer: the sink is
modelled separately (see `Sink`), each operation returning the bytes it
attempts to write. -/
structure ProgressBarState where
  current : Nat
  total : Nat
  message : String
  finished : Bool
  config : BarConfig
  is_tty : Bool
deriving Repr, DecidableEq

/-- Spec-side: the exact-rational fill count the claim's wording
prescribes, `round(current/total · width)` computed without floating-point
error.  `round` (half away from zero, nonnegative here) of `c·w/t` is
`⌊c·w/t + 1/2⌋`, i.e. the Nat division `(2·c·w + t) / (2·t)` (proved equal
to the rational floor in `filledCount_eq_ratFloor`).  The program instead
computes `filledCountF` below; the two differ (`render_no_underflow_cex`). -/
def filledCount (s : ProgressBarState) : Nat :=
  (2 * s.current * s.config.width + max s.total 1) / (2 * max s.total 1)

/-- Spec-side: the exact truncated percent the claim's wording prescribes,
`⌊current·100/total⌋` computed without floating-point error.  The program
instead computes `percentValF` below; the two differ (`render_format_cex`). -/
def percentVal (s : ProgressBarState) : Nat :=
  s.current * 100 / max s.total 1

/-- `let ratio = self.current as f64 / self.total.max(1) as f64;`
(`src/lib.rs:61`), with both casts and the division correctly rounded. -/
def f64ratio (current total : Nat) : ℚ :=
  f64div (f64ofNat current) (f64ofNat (max total 1))

/-- `let filled = (ratio * self.config.width as f64).round() as usize;`
(`src/lib.rs:62`), evaluated in binary64 exactly as the program does. -/
def filledCountF (s : ProgressBarState) : Nat :=
  f64toNat (f64roundHalfAway
    (f64mul (f64ratio s.current s.total) (f64ofNat s.config.width)))

/-- `let percent = (ratio * 100.0) as u64;` (`src/lib.rs:64`), evaluated in
binary64 exactly as the program does (the literal `100.0` is exact). -/
def percentValF (s : ProgressBarState) : Nat :=
  f64toNat (f64mul (f64ratio s.current s.total) 100)

/-- The bar track (`src/lib.rs:66-68`): `filled` copies of the fill glyph
followed by `width - filled` copies of the empty glyph (Nat subtraction
truncates where the program's `usize` subtraction would underflow and
panic — see `render_no_underflow_cex` for the state reaching that case). -/
def barChars (s : ProgressBarState) : List Char :=
  List.replicate (filledCountF s) s.config.fill ++
    List.replicate (s.config.width - filledCountF s) s.config.empty

/-- Rust's `{:>3}` format specifier: left-pad with spaces to at least 3
characters. -/
def padLeft3 (t : String) : String :=
  if 3 ≤ t.length then t
  else String.mk (List.replicate (3 - t.length) ' ') ++ t

/-- The in-progress line (`src/lib.rs:70-77`):
`[<bar>] <percent:>3>% <current>/<total>` with ` <message>` appended only
when the message is nonempty. -/
def renderedLine (s : ProgressBarState) : String :=
  let base := "[" ++ String.mk (barChars s) ++ "] " ++
    padLeft3 (Nat.repr (percentValF s)) ++ "% " ++
    Nat.repr s.current ++ "/" ++ Nat.repr s.total
  if s.message.isEmpty then base else base ++ " " ++ s.message

/-- The bytes one render attempts to write (`src/lib.rs:79-84`): terminal
mode prefixes `\r` with no trailing newline; non-terminal mode appends `\n`. -/
def renderOutput (s : ProgressBarState) : String :=
  if s.is_tty then "\r" ++ renderedLine s else renderedLine s ++ "\n"

/-- `ProgressBarState::finalize` (`src/lib.rs:87-104`): no-op when already
finished, otherwise set `finished` and emit the finalization line. -/
def ProgressBarState.finalize (s : ProgressBarState) (symbol colorCode msg : String) :
    ProgressBarState × String :=
  if s.finished then (s, "")
  else
    let s' := { s with finished := true }
    let out := if s.is_tty then
        "\r\x1b[2K" ++ colorCode ++ symbol ++ "\x1b[0m " ++ msg ++ "\n"
      else symbol ++ " " ++ msg ++ "\n"
    (s', out)

/-- `ProgressBar::tick` (`src/lib.rs:263-270`): no-op when finished,
otherwise `current = current.saturating_add(amount).min(total)` and one
render. -/
def ProgressBarState.tick (s : ProgressBarState) (amount : Nat) :
    ProgressBarState × String :=
  if s.finished then (s, "")
  else
    let s' := { s with current := min (saturating_add s.current amount) s.total }
    (s', renderOutput s')

/-- `ProgressBar::set_message` (`src/lib.rs:273-276`): replace the message;
no render, no guard on `finished`. -/
def ProgressBarState.set_message (s : ProgressBarState) (msg : String) :
    ProgressBarState × String :=
  ({ s with message := msg }, "")

/-- `ProgressBar::success` (`src/lib.rs:279-282`). -/
def ProgressBarState.success (s : ProgressBarState) (msg : String) :
    ProgressBarState × String :=
  s.finalize "✔" "\x1b[32m" msg

/-- `ProgressBar::fail` (`src/lib.rs:285-288`). -/
def ProgressBarState.fail (s : ProgressBarState) (msg : String) :
    ProgressBarState × String :=
  s.finalize "✖" "\x1b[31m" msg

/-- `impl Drop for ProgressBar` (`src/lib.rs:299-310`): `strongCount` is the
`Arc::strong_count` observed by the dropped handle before the reference is
released.  Only the last handle (`strongCount = 1`) of an unfinished bar
writes, and it writes exactly one newline. -/
def dropOutput (strongCount : Nat) (s : ProgressBarState) : String :=
  if strongCount = 1 then (if s.finished then "" else "\n") else ""

/-- `ProgressBarBuilder` (`src/lib.rs:150-156`); the optional boxed writer is
modelled by whether a custom writer was supplied. -/
structure ProgressBarBuilder where
  total : Nat
  config : BarConfig
  message : String
  hasCustomWriter : Bool
  tty_override : Option Bool

/-- `ProgressBar::new` (`src/lib.rs:251-259`). -/
def ProgressBar.new (total : Nat) : ProgressBarBuilder :=
  { total := total, config := BarConfig.default, message := "",
    hasCustomWriter := false, tty_override := none }

/-- `ProgressBarBuilder::start` (`src/lib.rs:197-223`), with the external
TTY probe `is_stdout_tty()` injected as the boolean `probe`.  Returns the
initial state and the bytes of the initial render performed before the
handle is returned. -/
def ProgressBarBuilder.start (b : ProgressBarBuilder) (probe : Bool) :
    ProgressBarState × String :=
  let total := if b.total = 0 then 1 else b.total
  let is_tty := b.tty_override.getD (if b.hasCustomWriter then false else probe)
  let s : ProgressBarState :=
    { current := 0, total := total, message := b.message, finished := false,
      config := b.config, is_tty := is_tty }
  (s, renderOutput s)

/-- A sink with possibly-failing writes: `ok = false` models a writer whose
`write`/`flush` return `Err`.  The source discards those errors with `.ok()`
(`src/lib.rs:80,82,84,99,101,103`), so a failing write simply delivers no
bytes; `flush` transfers no bytes of its own in either case. -/
structure Sink where
  buf : String
  ok : Bool

/-- One swallowed-error write attempt. -/
def Sink.put (k : Sink) (out : String) : Sink :=
  if k.ok then { k with buf := k.buf ++ out } else k

/-- `tick` run against a sink: the state mutation and the write attempt. -/
def tickRun (s : ProgressBarState) (k : Sink) (amount : Nat) :
    ProgressBarState × Sink :=
  ((s.tick amount).1, k.put (s.tick amount).2)

/-- `set_message` run against a sink. -/
def setMessageRun (s : ProgressBarState) (k : Sink) (msg : String) :
    ProgressBarState × Sink :=
  ((s.set_message msg).1, k.put (s.set_message msg).2)

/-- `success` run against a sink. -/
def successRun (s : ProgressBarState) (k : Sink) (msg : String) :
    ProgressBarState × Sink :=
  ((s.success msg).1, k.put (s.success msg).2)

/-- `fail` run against a sink. -/
def failRun (s : ProgressBarState) (k : Sink) (msg : String) :
    ProgressBarState × Sink :=
  ((s.fail msg).1, k.put (s.fail msg).2)

/-- A sequence of ticks applied through the (serializing) mutex:
left fold of the state component of `tick`. -/
def applyTicks (s : ProgressBarState) (l : List Nat) : ProgressBarState :=
  List.foldl (fun st a => (st.tick a).1) s l

/-- The saturating sum of the claims: left fold of `u64::saturating_add`
starting from 0. -/
def satSum (l : List Nat) : Nat := List.foldl saturating_add 0 l

/-! ## Sample states for witnesses -/

/-- A concrete already-finalized state. -/
def sampleFinished : ProgressBarState :=
  { current := 5, total := 10, message := "", finished := true,
    config := BarConfig.default, is_tty := false }

/-- A concrete running (not finalized) state. -/
def sampleRunning : ProgressBarState :=
  { current := 5, total := 10, message := "", finished := false,
    config := { width := 10, fill := '#', empty := '-' }, is_tty := true }

/-- Reachable state (`new(100).start()` then `tick(29)`) where the f64
percent diverges from the exact truncated percent. -/
def sC4 : ProgressBarState :=
  { current := 29, total := 100, message := "", finished := false,
    config := BarConfig.default, is_tty := false }

/-- Reachable state (`new(1).width(2^53 + 3).start()` then `tick(1)`) where
the f64 fill count exceeds the width. -/
def sC9 : ProgressBarState :=
  { current := 1, total := 1, message := "", finished := false,
    config := { width := 2 ^ 53 + 3, fill := '█', empty := '░' },
    is_tty := false }

/-! ## Claim theorems -/

/-- C2: finalization is idempotent — once `finished` is true, `success` and
`fail` (any messages, either order) write no bytes and leave every field of
the state unchanged. -/
theorem finalize_idempotent (s : ProgressBarState) (m₁ m₂ : String)
    (h : s.finished = true) :
    s.success m₁ = (s, "") ∧ s.fail m₂ = (s, "") ∧
    (s.success m₁).1.fail m₂ = (s, "") ∧ (s.fail m₂).1.success m₁ = (s, "") := by
  simp [ProgressBarState.success, ProgressBarState.fail,
    ProgressBarState.finalize, h]

/-- Witness for C2 at a concrete finalized state. -/
theorem finalize_idempotent_witness :
    sampleFinished.finished = true ∧
    (sampleFinished.success "ok" = (sampleFinished, "") ∧
     sampleFinished.fail "no" = (sampleFinished, "") ∧
     (sampleFinished.success "ok").1.fail "no" = (sampleFinished, "") ∧
     (sampleFinished.fail "no").1.success "ok" = (sampleFinished, "")) :=
  ⟨rfl, finalize_idempotent sampleFinished "ok" "no" rfl⟩

/-- C3: after finalization, `tick` leaves the whole state unchanged and
writes no bytes, so the emitted output is byte-for-byte identical before and
after the call. -/
theorem tick_after_finalize (s : ProgressBarState) (amount : Nat)
    (h : s.finished = true) :
    s.tick amount = (s, "") := by
  simp [ProgressBarState.tick, h]

/-- Witness for C3 at a concrete finalized state. -/
theorem tick_after_finalize_witness :
    sampleFinished.finished = true ∧ sampleFinished.tick 7 = (sampleFinished, "") :=
  ⟨rfl, tick_after_finalize sampleFinished 7 rfl⟩

/-- C10: `set_message` is not guarded by `finished` — for every state
(finalized or not) it replaces the message, writes no bytes, and changes no
other field. -/
theorem set_message_unguarded (s : ProgressBarState) (m : String) :
    s.set_message m = ({ s with message := m }, "") ∧
    (s.set_message m).1.message = m ∧
    (s.set_message m).1.current = s.current ∧
    (s.set_message m).1.total = s.total ∧
    (s.set_message m).1.finished = s.finished ∧
    (s.set_message m).2 = "" :=
  ⟨rfl, rfl, rfl, rfl, rfl, rfl⟩

/-- C5: the first `success`/`fail` on a not-yet-finished state sets
`finished` and writes exactly the finalization line: in terminal mode
`\r ESC[2K <color> <symbol> ESC[0m SP <msg> NL` (green `✔` for success, red
`✖` for fail); in non-terminal mode `<symbol> SP <msg> NL` with no escapes. -/
theorem finalize_output_format (s : ProgressBarState) (m : String)
    (h : s.finished = false) :
    s.success m = ({ s with finished := true },
      if s.is_tty then "\r\x1b[2K\x1b[32m✔\x1b[0m " ++ m ++ "\n"
      else "✔ " ++ m ++ "\n") ∧
    s.fail m = ({ s with finished := true },
      if s.is_tty then "\r\x1b[2K\x1b[31m✖\x1b[0m " ++ m ++ "\n"
      else "✖ " ++ m ++ "\n") := by
  cases hs : s.is_tty <;>
    simp [ProgressBarState.success, ProgressBarState.fail,
      ProgressBarState.finalize, h, hs]

/-- Witness for C5 at a concrete running terminal-mode state. -/
theorem finalize_output_format_witness :
    sampleRunning.finished = false ∧
    (sampleRunning.success "done" = ({ sampleRunning with finished := true },
      if sampleRunning.is_tty then "\r\x1b[2K\x1b[32m✔\x1b[0m " ++ "done" ++ "\n"
      else "✔ " ++ "done" ++ "\n") ∧
     sampleRunning.fail "done" = ({ sampleRunning with finished := true },
      if sampleRunning.is_tty then "\r\x1b[2K\x1b[31m✖\x1b[0m " ++ "done" ++ "\n"
      else "✖ " ++ "done" ++ "\n")) :=
  ⟨rfl, finalize_output_format sampleRunning "done" rfl⟩

/-- C6: releasing the last handle (`strong_count = 1`) of an unfinished bar
writes exactly one newline byte and nothing else; of a finished bar, nothing;
releasing while other clones exist (`strong_count ≥ 2`) writes nothing. -/
theorem drop_cleanup (s : ProgressBarState) (n : Nat) (h : 2 ≤ n) :
    dropOutput 1 s = (if s.finished then "" else "\n") ∧ dropOutput n s = "" := by
  have hn : n ≠ 1 := by omega
  simp [dropOutput, hn]

/-- Witness for C6 at a concrete running state with a second clone alive. -/
theorem drop_cleanup_witness :
    2 ≤ 2 ∧
    (dropOutput 1 sampleRunning = (if sampleRunning.finished then "" else "\n") ∧
     dropOutput 2 sampleRunning = "") :=
  ⟨by decide, drop_cleanup sampleRunning 2 (by decide)⟩

/-- C7: `start` normalizes a zero total to 1 and otherwise keeps it, begins
with `current = 0` and `finished = false`, and performs exactly one render
before returning the handle. -/
theorem start_normalizes (b : ProgressBarBuilder) (probe : Bool) :
    ((b.start probe).1.total = if b.total = 0 then 1 else b.total) ∧
    (b.start probe).1.current = 0 ∧
    (b.start probe).1.finished = false ∧
    (b.start probe).2 = renderOutput (b.start probe).1 :=
  ⟨rfl, rfl, rfl, rfl⟩

/-- C8: `tick`, `set_message`, `success`, `fail` are total functions whose
state mutation does not depend on the sink: a failing sink (write/flush
errors) changes the delivered bytes only, never the resulting state, and no
error is propagated to the caller. -/
theorem ops_infallible (s : ProgressBarState) (k k' : Sink) (a : Nat)
    (m : String) :
    (tickRun s k a).1 = (s.tick a).1 ∧
    (setMessageRun s k m).1 = (s.set_message m).1 ∧
    (successRun s k m).1 = (s.success m).1 ∧
    (failRun s k m).1 = (s.fail m).1 ∧
    (tickRun s k a).1 = (tickRun s k' a).1 ∧
    (setMessageRun s k m).1 = (setMessageRun s k' m).1 ∧
    (successRun s k m).1 = (successRun s k' m).1 ∧
    (failRun s k m).1 = (failRun s k' m).1 :=
  ⟨rfl, rfl, rfl, rfl, rfl, rfl, rfl, rfl⟩

/-! ## Saturating-addition helper lemmas -/

lemma saturating_add_le_max (a b : Nat) : saturating_add a b ≤ U64MAX :=
  min_le_right _ _

lemma foldl_saturating_add (l : List Nat) (acc : Nat) (h : acc ≤ U64MAX) :
    List.foldl saturating_add acc l = min (acc + l.sum) U64MAX := by
  induction l generalizing acc with
  | nil => simpa using (Nat.min_eq_left (by omega))
  | cons a t ih =>
    rw [List.foldl_cons, ih (saturating_add acc a) (saturating_add_le_max acc a)]
    simp only [List.sum_cons, saturating_add]
    omega

lemma applyTicks_fields (l : List Nat) (s : ProgressBarState)
    (hf : s.finished = false) (ht : s.total ≤ U64MAX)
    (hc : s.current ≤ s.total) :
    (applyTicks s l).current = min s.total (List.foldl saturating_add s.current l) ∧
    (applyTicks s l).total = s.total ∧
    (applyTicks s l).finished = false := by
  induction l generalizing s with
  | nil =>
    refine ⟨?_, rfl, hf⟩
    simp [applyTicks, Nat.min_eq_right hc]
  | cons a t ih =>
    have hstep : applyTicks s (a :: t) =
        applyTicks { s with current := min (saturating_add s.current a) s.total } t := by
      simp [applyTicks, ProgressBarState.tick, hf]
    set s' : ProgressBarState :=
      { s with current := min (saturating_add s.current a) s.total } with hs'
    have h1 : s'.finished = false := hf
    have h2 : s'.total ≤ U64MAX := ht
    have h3 : s'.current ≤ s'.total := min_le_right _ _
    obtain ⟨ihc, iht, ihf⟩ := ih s' h1 h2 h3
    rw [hstep]
    refine ⟨?_, iht, ihf⟩
    rw [ihc]
    have hl : s'.current ≤ U64MAX := le_trans h3 h2
    rw [foldl_saturating_add t s'.current hl, List.foldl_cons,
      foldl_saturating_add t (saturating_add s.current a) (saturating_add_le_max _ _)]
    show min s.total (min (min (min (s.current + a) U64MAX) s.total + t.sum) U64MAX)
      = min s.total (min (min (s.current + a) U64MAX + t.sum) U64MAX)
    omega

/-- C1: for any bar started with total `t ≥ 1` (so `current = 0`,
`finished = false`) and any sequence of tick amounts, the resulting
`current` is `min t (saturating_sum amounts)` where `saturating_sum` is the
left fold of `u64::saturating_add` from 0; applying the same multiset of
amounts in any other order gives the same `current` (no tick wraps — the
model clamps at `u64::MAX` exactly as `saturating_add` does). -/
theorem tick_accumulation (s : ProgressBarState) (l l' : List Nat)
    (hf : s.finished = false) (hc : s.current = 0)
    (ht1 : 1 ≤ s.total) (ht : s.total ≤ U64MAX) (hperm : l.Perm l') :
    (applyTicks s l).current = min s.total (satSum l) ∧
    (applyTicks s l').current = (applyTicks s l).current := by
  have hc' : s.current ≤ s.total := by omega
  have h1 := (applyTicks_fields l s hf ht hc').1
  have h2 := (applyTicks_fields l' s hf ht hc').1
  have hl : (0 : Nat) ≤ U64MAX := Nat.zero_le _
  constructor
  · rw [h1, hc, satSum]
  · rw [h1, h2, hc, foldl_saturating_add l 0 hl, foldl_saturating_add l' 0 hl,
      hperm.sum_eq]

/-- Witness for C1: total 10, amounts `[4, 9, 3]` and the permutation
`[9, 3, 4]`; the clamped sum is `min 10 16 = 10`. -/
theorem tick_accumulation_witness :
    let s : ProgressBarState :=
      { current := 0, total := 10, message := "", finished := false,
        config := BarConfig.default, is_tty := false }
    s.finished = false ∧ s.current = 0 ∧ 1 ≤ s.total ∧ s.total ≤ U64MAX ∧
    ([4, 9, 3] : List Nat).Perm [9, 3, 4] ∧
    ((applyTicks s [4, 9, 3]).current = min s.total (satSum [4, 9, 3]) ∧
     (applyTicks s [9, 3, 4]).current = (applyTicks s [4, 9, 3]).current) :=
  ⟨rfl, rfl, by decide, by decide, by decide,
    tick_accumulation _ [4, 9, 3] [9, 3, 4] rfl rfl (by decide) (by decide)
      (by decide)⟩

/-! ## IEEE-754 binary64 rounding: basic lemmas -/

lemma rne_intCast (n : ℤ) : rne (n : ℚ) = n := by
  simp [rne]

lemma floor_le_rne (x : ℚ) : ⌊x⌋ ≤ rne x := by
  unfold rne; split_ifs <;> omega

lemma rne_le_floor_add_one (x : ℚ) : rne x ≤ ⌊x⌋ + 1 := by
  unfold rne; split_ifs <;> omega

lemma rne_mono {x y : ℚ} (h : x ≤ y) : rne x ≤ rne y := by
  rcases eq_or_lt_of_le (Int.floor_le_floor h) with hf | hf
  · have hxy : x - (⌊x⌋ : ℚ) ≤ y - (⌊y⌋ : ℚ) := by
      rw [← hf]; linarith
    unfold rne
    rw [hf] at hxy ⊢
    split_ifs <;> first | omega | linarith
  · calc rne x ≤ ⌊x⌋ + 1 := rne_le_floor_add_one x
    _ ≤ ⌊y⌋ := by omega
    _ ≤ rne y := floor_le_rne y

lemma zpow_log_le (q : ℚ) (h0 : 0 < q) : (2:ℚ) ^ Int.log 2 q ≤ q := by
  have h := Int.zpow_log_le_self (b := 2) (by norm_num) h0
  exact_mod_cast h

lemma lt_zpow_log_succ (q : ℚ) : q < (2:ℚ) ^ (Int.log 2 q + 1) := by
  have h := Int.lt_zpow_succ_log_self (b := 2) (by norm_num) q
  exact_mod_cast h

lemma int_log2_eq (q : ℚ) (e : ℤ) (h1 : 2 ^ e ≤ q) (h2 : q < 2 ^ (e + 1)) :
    Int.log 2 q = e := by
  have h0 : 0 < q := lt_of_lt_of_le (zpow_pos (by norm_num) e) h1
  have hl := zpow_log_le q h0
  have hr := lt_zpow_log_succ q
  by_contra hne
  rcases lt_or_gt_of_ne hne with hlt | hgt
  · have h3 : (2:ℚ) ^ (Int.log 2 q + 1) ≤ 2 ^ e :=
      zpow_le_zpow_right₀ (by norm_num) (by omega)
    linarith
  · have h3 : (2:ℚ) ^ (e + 1) ≤ 2 ^ (Int.log 2 q) :=
      zpow_le_zpow_right₀ (by norm_num) (by omega)
    linarith

lemma f64round_eval (q : ℚ) (e : ℤ) (h1 : 2 ^ e ≤ q) (h2 : q < 2 ^ (e + 1)) :
    f64round q = (rne (q * 2 ^ (52 - e)) : ℚ) * 2 ^ (e - 52) := by
  have h0 : 0 < q := lt_of_lt_of_le (zpow_pos (by norm_num) e) h1
  rw [f64round, if_neg (not_le.mpr h0), int_log2_eq q e h1 h2]

lemma f64round_nonneg (q : ℚ) : 0 ≤ f64round q := by
  unfold f64round
  split_ifs with h
  · exact le_refl 0
  · push_neg at h
    have hs : (0:ℚ) ≤ q * 2 ^ (52 - Int.log 2 q) :=
      mul_nonneg h.le (zpow_pos (by norm_num : (0:ℚ) < 2) _).le
    have h1 : (0:ℤ) ≤ rne (q * 2 ^ (52 - Int.log 2 q)) :=
      le_trans (Int.floor_nonneg.mpr hs) (floor_le_rne _)
    exact mul_nonneg (by exact_mod_cast h1) (zpow_pos (by norm_num : (0:ℚ) < 2) _).le

lemma f64round_natCast (n : ℕ) (hn : n ≤ 2 ^ 53) : f64round (n : ℚ) = n := by
  rcases Nat.eq_zero_or_pos n with h0 | h0
  · subst h0; simp [f64round]
  have hq : (0:ℚ) < n := by exact_mod_cast h0
  have hl := zpow_log_le (n : ℚ) hq
  have hnle : (n : ℚ) ≤ (2:ℚ) ^ (53:ℤ) := by
    rw [show ((2:ℚ) ^ (53:ℤ)) = (((2^53 : ℕ)) : ℚ) by norm_num]
    exact_mod_cast hn
  set e := Int.log 2 (n : ℚ) with he
  have he53 : e ≤ 53 := by
    have h1 : (2:ℚ) ^ e ≤ 2 ^ (53:ℤ) := le_trans hl hnle
    exact (zpow_le_zpow_iff_right₀ (by norm_num)).mp h1
  rcases eq_or_lt_of_le he53 with h53 | hlt53
  · have hge : (2:ℚ) ^ (53:ℤ) ≤ (n:ℚ) := by rw [← h53]; exact hl
    have heq : (n:ℚ) = 2 ^ (53:ℤ) := le_antisymm hnle hge
    rw [f64round, if_neg (not_le.mpr hq), ← he, h53, heq]
    rw [show ((2:ℚ) ^ (53:ℤ)) * 2 ^ ((52:ℤ) - 53) = (((2^52 : ℤ)) : ℚ) by
      rw [← zpow_add₀ (by norm_num : (2:ℚ) ≠ 0)]; norm_num]
    rw [rne_intCast]
    rw [show (((2^52 : ℤ)) : ℚ) = (2:ℚ) ^ (52:ℤ) by norm_num]
    rw [← zpow_add₀ (by norm_num : (2:ℚ) ≠ 0)]
    norm_num
  · have he52 : e ≤ 52 := by omega
    have hint : (n : ℚ) * 2 ^ ((52:ℤ) - e) =
        ((((n : ℤ) * 2 ^ ((52 - e).toNat) : ℤ)) : ℚ) := by
      push_cast
      rw [← zpow_natCast (2:ℚ) ((52 - e).toNat),
        Int.toNat_of_nonneg (by omega : (0:ℤ) ≤ 52 - e)]
    rw [f64round, if_neg (not_le.mpr hq), ← he, hint, rne_intCast, ← hint,
      mul_assoc, ← zpow_add₀ (by norm_num : (2:ℚ) ≠ 0)]
    norm_num

lemma f64round_one : f64round 1 = 1 := by
  have h := f64round_natCast 1 (by norm_num)
  simpa using h

lemma f64round_le_zpow (q : ℚ) (h0 : 0 < q) :
    f64round q ≤ 2 ^ (Int.log 2 q + 1) := by
  set e := Int.log 2 q with he
  rw [f64round, if_neg (not_le.mpr h0), ← he]
  have hz : (2:ℚ) ≠ 0 := by norm_num
  have hp : ∀ m : ℤ, (0:ℚ) < 2 ^ m := fun m => zpow_pos (by norm_num) m
  have h3 : (2:ℚ) ^ (e + 1) * 2 ^ ((52:ℤ) - e) = ((2^53 : ℤ) : ℚ) := by
    rw [← zpow_add₀ hz, show e + 1 + ((52:ℤ) - e) = 53 by ring]
    norm_num
  have hsc : q * 2 ^ ((52:ℤ) - e) ≤ ((2^53 : ℤ) : ℚ) := by
    have h2 : q * 2 ^ ((52:ℤ) - e) < 2 ^ (e + 1) * 2 ^ ((52:ℤ) - e) :=
      mul_lt_mul_of_pos_right (lt_zpow_log_succ q) (hp _)
    rw [h3] at h2
    exact h2.le
  have hrne : rne (q * 2 ^ ((52:ℤ) - e)) ≤ 2^53 := by
    have h4 := rne_mono hsc
    rwa [rne_intCast] at h4
  have h5 : ((2^53 : ℤ) : ℚ) * 2 ^ (e - 52) = 2 ^ (e + 1) := by
    rw [show (((2^53 : ℤ)) : ℚ) = (2:ℚ) ^ (53:ℤ) by norm_num, ← zpow_add₀ hz,
      show (53:ℤ) + (e - 52) = e + 1 by ring]
  calc (rne (q * 2 ^ ((52:ℤ) - e)) : ℚ) * 2 ^ (e - 52)
      ≤ ((2^53 : ℤ) : ℚ) * 2 ^ (e - 52) :=
        mul_le_mul_of_nonneg_right (by exact_mod_cast hrne) (hp _).le
    _ = 2 ^ (e + 1) := h5

lemma zpow_le_f64round (q : ℚ) (h0 : 0 < q) :
    2 ^ (Int.log 2 q) ≤ f64round q := by
  set e := Int.log 2 q with he
  rw [f64round, if_neg (not_le.mpr h0), ← he]
  have hz : (2:ℚ) ≠ 0 := by norm_num
  have hp : ∀ m : ℤ, (0:ℚ) < 2 ^ m := fun m => zpow_pos (by norm_num) m
  have h3 : (2:ℚ) ^ e * 2 ^ ((52:ℤ) - e) = ((2^52 : ℤ) : ℚ) := by
    rw [← zpow_add₀ hz, show e + ((52:ℤ) - e) = 52 by ring]
    norm_num
  have hsc : ((2^52 : ℤ) : ℚ) ≤ q * 2 ^ ((52:ℤ) - e) := by
    have h2 : (2:ℚ) ^ e * 2 ^ ((52:ℤ) - e) ≤ q * 2 ^ ((52:ℤ) - e) :=
      mul_le_mul_of_nonneg_right (zpow_log_le q h0) (hp _).le
    rwa [h3] at h2
  have hrne : (2^52 : ℤ) ≤ rne (q * 2 ^ ((52:ℤ) - e)) := by
    have h4 := rne_mono hsc
    rwa [rne_intCast] at h4
  have h5 : ((2^52 : ℤ) : ℚ) * 2 ^ (e - 52) = 2 ^ e := by
    rw [show (((2^52 : ℤ)) : ℚ) = (2:ℚ) ^ (52:ℤ) by norm_num, ← zpow_add₀ hz,
      show (52:ℤ) + (e - 52) = e by ring]
  calc (2:ℚ) ^ e = ((2^52 : ℤ) : ℚ) * 2 ^ (e - 52) := h5.symm
    _ ≤ (rne (q * 2 ^ ((52:ℤ) - e)) : ℚ) * 2 ^ (e - 52) :=
        mul_le_mul_of_nonneg_right (by exact_mod_cast hrne) (hp _).le

lemma f64round_mono {x y : ℚ} (h : x ≤ y) : f64round x ≤ f64round y := by
  by_cases hx : x ≤ 0
  · rw [f64round, if_pos hx]; exact f64round_nonneg y
  push_neg at hx
  have hy : 0 < y := lt_of_lt_of_le hx h
  have hee : Int.log 2 x ≤ Int.log 2 y := Int.log_mono_right hx h
  have hp : ∀ m : ℤ, (0:ℚ) < 2 ^ m := fun m => zpow_pos (by norm_num) m
  rcases eq_or_lt_of_le hee with heq | hlt
  · rw [f64round, if_neg (not_le.mpr hx), f64round, if_neg (not_le.mpr hy), ← heq]
    have h1 : x * 2 ^ ((52:ℤ) - Int.log 2 x) ≤ y * 2 ^ ((52:ℤ) - Int.log 2 x) :=
      mul_le_mul_of_nonneg_right h (hp _).le
    have h2 : rne (x * 2 ^ ((52:ℤ) - Int.log 2 x)) ≤
        rne (y * 2 ^ ((52:ℤ) - Int.log 2 x)) := rne_mono h1
    exact mul_le_mul_of_nonneg_right (by exact_mod_cast h2) (hp _).le
  · calc f64round x ≤ 2 ^ (Int.log 2 x + 1) := f64round_le_zpow x hx
      _ ≤ 2 ^ (Int.log 2 y) := zpow_le_zpow_right₀ (by norm_num) (by omega)
      _ ≤ f64round y := zpow_le_f64round y hy

/-! ## Bounding the filled count -/

/-- Spec-side bound: the exact-rational fill count of the claim's wording
is always at most the width — the program's f64 evaluation does not share
this property (`render_no_underflow_cex`). -/
lemma filledCount_le_width (s : ProgressBarState)
    (hc : s.current ≤ s.total) :
    filledCount s ≤ s.config.width := by
  unfold filledCount
  set T := max s.total 1 with hT
  have hT1 : 1 ≤ T := le_max_right _ _
  have hcT : s.current ≤ T := le_trans hc (le_max_left _ _)
  have h2T : 0 < 2 * T := by omega
  have h1 : 2 * s.current * s.config.width ≤ 2 * T * s.config.width :=
    Nat.mul_le_mul (Nat.mul_le_mul (le_refl 2) hcT) (le_refl _)
  have hlt : 2 * s.current * s.config.width + T <
      (s.config.width + 1) * (2 * T) := by
    have h2 : (s.config.width + 1) * (2 * T) =
        2 * T * s.config.width + 2 * T := by ring
    have h3 : 2 * s.current * s.config.width + T <
        2 * T * s.config.width + 2 * T :=
      lt_of_le_of_lt (Nat.add_le_add_right h1 T)
        (Nat.add_lt_add_left (by omega) _)
    omega
  have hdiv := (Nat.div_lt_iff_lt_mul h2T).mpr hlt
  omega

/-- Program-side bound: the f64-evaluated fill count is at most the width
provided the width is at most `2^53`, so that `width as f64` is exact.
(Above `2^53` the cast can round up past the width: `render_no_underflow_cex`.) -/
lemma filledCountF_le_width (s : ProgressBarState)
    (hc : s.current ≤ s.total) (hw : s.config.width ≤ 2 ^ 53) :
    filledCountF s ≤ s.config.width := by
  unfold filledCountF f64ratio
  set c := s.current with hc'
  set t := s.total with ht'
  set w := s.config.width with hw'
  set T := max t 1 with hT
  have hT1 : 1 ≤ T := le_max_right _ _
  have hcT : c ≤ T := le_trans hc (le_max_left _ _)
  have hTf1 : (1:ℚ) ≤ f64ofNat T := by
    have h1 := f64round_mono (show (1:ℚ) ≤ (T:ℚ) by exact_mod_cast hT1)
    rwa [f64round_one] at h1
  have hTfpos : (0:ℚ) < f64ofNat T := lt_of_lt_of_le one_pos hTf1
  have hcf : f64ofNat c ≤ f64ofNat T :=
    f64round_mono (by exact_mod_cast hcT)
  have hdiv1 : f64div (f64ofNat c) (f64ofNat T) ≤ 1 := by
    have h1 : f64ofNat c / f64ofNat T ≤ 1 := (div_le_one hTfpos).mpr hcf
    have h2 := f64round_mono h1
    rwa [f64round_one] at h2
  have hdiv0 : (0:ℚ) ≤ f64div (f64ofNat c) (f64ofNat T) := f64round_nonneg _
  have hwf : f64ofNat w = (w:ℚ) := f64round_natCast w hw
  have hprod : f64mul (f64div (f64ofNat c) (f64ofNat T)) (f64ofNat w) ≤ (w:ℚ) := by
    have h1 : f64div (f64ofNat c) (f64ofNat T) * f64ofNat w ≤ (w:ℚ) := by
      rw [hwf]
      calc f64div (f64ofNat c) (f64ofNat T) * (w:ℚ)
          ≤ 1 * (w:ℚ) := mul_le_mul_of_nonneg_right hdiv1 (by positivity)
        _ = (w:ℚ) := one_mul _
    have h2 := f64round_mono h1
    rwa [f64round_natCast w hw] at h2
  have hfloorw : ⌊(w:ℚ) + 1/2⌋ = (w:ℤ) := by
    rw [show ((w:ℚ)) = (((w:ℤ)):ℚ) by push_cast; ring, Int.floor_int_add]
    norm_num
  have hrha : ⌊f64mul (f64div (f64ofNat c) (f64ofNat T)) (f64ofNat w) + 1/2⌋
      ≤ (w:ℤ) := by
    have h1 := Int.floor_le_floor
      (show f64mul (f64div (f64ofNat c) (f64ofNat T)) (f64ofNat w) + 1/2
          ≤ (w:ℚ) + 1/2 by linarith)
    rwa [hfloorw] at h1
  rw [f64toNat, f64roundHalfAway, Int.floor_intCast]
  exact le_trans (min_le_left _ _) (Int.toNat_le.mpr hrha)

/-- C9 counterexample: at the reachable state `sC9` (total 1 after one
`tick(1)`, width `2^53 + 3`) the width cast rounds up to `2^53 + 4`, the
ratio is exactly 1, and the program computes `filled = 2^53 + 4 > width`,
so the subtraction `width - filled` in `render` (`src/lib.rs:63`) does
underflow — the claimed-unreachable branch is reachable. -/
theorem render_no_underflow_cex :
    sC9.current ≤ sC9.total ∧ 1 ≤ sC9.total ∧
    filledCountF sC9 = 2 ^ 53 + 4 ∧ sC9.config.width = 2 ^ 53 + 3 ∧
    sC9.config.width < filledCountF sC9 := by
  have h1 : f64ofNat 1 = 1 := by
    have h := f64round_natCast 1 (by norm_num)
    simpa [f64ofNat] using h
  have hdiv : f64div (1:ℚ) 1 = 1 := by
    rw [f64div, show ((1:ℚ)/1) = 1 by norm_num]; exact f64round_one
  have hw : f64ofNat (2^53 + 3) = 9007199254740996 := by
    rw [f64ofNat, show (((2^53 + 3 : ℕ)) : ℚ) = 9007199254740995 by norm_num,
      f64round_eval _ 53 (by norm_num) (by norm_num)]
    norm_num [rne]
  have hmul : f64mul (1:ℚ) 9007199254740996 = 9007199254740996 := by
    rw [f64mul, one_mul, f64round_eval _ 53 (by norm_num) (by norm_num)]
    norm_num [rne]
  have key : filledCountF sC9 = 2 ^ 53 + 4 := by
    show f64toNat (f64roundHalfAway
      (f64mul (f64div (f64ofNat 1) (f64ofNat (max 1 1))) (f64ofNat (2^53 + 3)))) =
      2 ^ 53 + 4
    rw [show max 1 1 = 1 from rfl, h1, hdiv, hw, hmul, f64roundHalfAway, f64toNat]
    norm_num [U64MAX]
    decide
  refine ⟨by decide, by decide, key, by decide, ?_⟩
  rw [key]
  decide

/-- C9 (amended): under the state invariants `current ≤ total`, `1 ≤ total`
and for widths of at most `2^53` (so that the `usize → f64` cast of the
width is exact — wider bars, excluded by the counterexample, can underflow),
the f64-computed fill count never exceeds `width`, so the subtraction
`width - filled` in `render` cannot underflow (the two parts recombine to
exactly `width`), and a zero width gives zero filled and zero empty glyphs. -/
theorem render_no_underflow_amended (s : ProgressBarState)
    (hc : s.current ≤ s.total) (_ht : 1 ≤ s.total)
    (hw : s.config.width ≤ 2 ^ 53) :
    filledCountF s ≤ s.config.width ∧
    filledCountF s + (s.config.width - filledCountF s) = s.config.width ∧
    (s.config.width = 0 → filledCountF s = 0 ∧
      s.config.width - filledCountF s = 0) := by
  have h := filledCountF_le_width s hc hw
  exact ⟨h, by omega, fun hz => by omega⟩

/-- Witness for the amended C9 at `current = 5`, `total = 10`, `width = 10`. -/
theorem render_no_underflow_amended_witness :
    sampleRunning.current ≤ sampleRunning.total ∧ 1 ≤ sampleRunning.total ∧
    sampleRunning.config.width ≤ 2 ^ 53 ∧
    (filledCountF sampleRunning ≤ sampleRunning.config.width ∧
     filledCountF sampleRunning +
       (sampleRunning.config.width - filledCountF sampleRunning) =
         sampleRunning.config.width ∧
     (sampleRunning.config.width = 0 → filledCountF sampleRunning = 0 ∧
       sampleRunning.config.width - filledCountF sampleRunning = 0)) :=
  ⟨by decide, by decide, by decide,
    render_no_underflow_amended sampleRunning (by decide) (by decide) (by decide)⟩

/-! ## Rational characterisation of the render arithmetic -/

lemma filledCount_eq_ratFloor (s : ProgressBarState) (ht : 1 ≤ s.total) :
    filledCount s =
      Nat.floor (((s.current : ℚ) * s.config.width / s.total) + 1 / 2) := by
  have hmax : max s.total 1 = s.total := max_eq_left ht
  have htQ : (s.total : ℚ) ≠ 0 := Nat.cast_ne_zero.mpr (by omega)
  unfold filledCount
  rw [hmax]
  have key : ((s.current : ℚ) * s.config.width / s.total + 1 / 2) =
      ((2 * s.current * s.config.width + s.total : ℕ) : ℚ) /
        ((2 * s.total : ℕ) : ℚ) := by
    push_cast
    field_simp
    ring
  rw [key, Nat.floor_div_nat, Nat.floor_natCast]

lemma percentVal_eq_ratFloor (s : ProgressBarState) (ht : 1 ≤ s.total) :
    percentVal s = Nat.floor ((s.current : ℚ) / s.total * 100) := by
  have hmax : max s.total 1 = s.total := max_eq_left ht
  have htQ : (s.total : ℚ) ≠ 0 := Nat.cast_ne_zero.mpr (by omega)
  unfold percentVal
  rw [hmax]
  have key : ((s.current : ℚ) / s.total * 100) =
      ((s.current * 100 : ℕ) : ℚ) / ((s.total : ℕ) : ℚ) := by
    push_cast
    field_simp
  rw [key, Nat.floor_div_nat, Nat.floor_natCast]

/-! ## Shape of the rendered line -/

lemma barChars_length (s : ProgressBarState) (hc : s.current ≤ s.total)
    (hw : s.config.width ≤ 2 ^ 53) :
    (barChars s).length = s.config.width := by
  have h := filledCountF_le_width s hc hw
  simp [barChars]
  omega

lemma padLeft3_data (t : String) :
    (padLeft3 t).data =
      List.replicate (3 - t.length) ' ' ++ t.data := by
  unfold padLeft3
  split
  · next h => simp [Nat.sub_eq_zero_of_le h]
  · rfl

lemma renderedLine_data (s : ProgressBarState) :
    (renderedLine s).data =
      ("[" : String).data ++ (String.mk (barChars s)).data ++
      ("] " : String).data ++
      List.replicate (3 - (Nat.repr (percentValF s)).length) ' ' ++
      (Nat.repr (percentValF s)).data ++
      ("%" : String).data ++ (" " : String).data ++
      (Nat.repr s.current).data ++ ("/" : String).data ++
      (Nat.repr s.total).data ++
      (if s.message.isEmpty then [] else (" " : String).data ++ s.message.data) := by
  have hsplit : ("% " : String).data = ("%" : String).data ++ (" " : String).data := rfl
  cases hm : s.message.isEmpty <;>
    simp [renderedLine, hm, String.data_append, padLeft3_data, hsplit,
      List.append_assoc]

/-- C4 counterexample: at the reachable state `sC4` (total 100 after
`tick(29)`) the double rounding of `29/100` makes the program compute
`(0.28999999999999998 * 100.0) as u64 = 28`, while the claim's exact
truncated percent `⌊29·100/100⌋` is 29 — the render does not emit
`floor(current/total·100)`. -/
theorem render_format_cex :
    sC4.current ≤ sC4.total ∧ 1 ≤ sC4.total ∧
    percentValF sC4 = 28 ∧ percentVal sC4 = 29 ∧
    percentValF sC4 ≠ percentVal sC4 := by
  have h29 : f64ofNat 29 = 29 := by
    have h := f64round_natCast 29 (by norm_num)
    simpa [f64ofNat] using h
  have h100 : f64ofNat (max 100 1) = 100 := by
    have h := f64round_natCast 100 (by norm_num)
    simpa [f64ofNat] using h
  have hdiv : f64div (29:ℚ) 100 = 5224175567749775 / 18014398509481984 := by
    rw [f64div, show ((29:ℚ)/100) = 29/100 by norm_num,
      f64round_eval _ (-2) (by norm_num) (by norm_num)]
    norm_num [rne]
  have hmul : f64mul ((5224175567749775 : ℚ) / 18014398509481984) 100 =
      8162774324609023 / 281474976710656 := by
    rw [f64mul, f64round_eval _ 4 (by norm_num) (by norm_num)]
    norm_num [rne]
  have key : percentValF sC4 = 28 := by
    show f64toNat (f64mul (f64div (f64ofNat 29) (f64ofNat (max 100 1))) 100) = 28
    rw [h29, h100, hdiv, hmul, f64toNat]
    norm_num [U64MAX]
    decide
  refine ⟨by decide, by decide, key, by decide, ?_⟩
  rw [key]
  decide

/-- C4 (amended): one render of a state with `current ≤ total`,
`total ≥ 1`, `width ≤ 2^53` emits (in terminal mode) `\r` followed by the
line with no trailing newline and (in non-terminal mode) the line followed
by a single `\n`; the line is `[<bar>] <percent:>3>% <current>/<total>`
with ` <message>` appended only when nonempty; the bar is exactly `width`
characters — `filled` fill glyphs then the remainder empty glyphs — where
`filled` and the percent are the values the source's double-precision
evaluation of `round(current/total·width)` and `trunc(current/total·100)`
produces (these can differ from the exact `round`/`floor` values:
`render_format_cex`); and the line contains the substrings
`<current>/<total>`, `<percent>%`, and the message verbatim when nonempty. -/
theorem render_format_amended (s : ProgressBarState)
    (hc : s.current ≤ s.total) (_ht : 1 ≤ s.total)
    (hw : s.config.width ≤ 2 ^ 53) :
    renderOutput s =
      (if s.is_tty then "\r" ++ renderedLine s else renderedLine s ++ "\n") ∧
    (String.mk (barChars s)).length = s.config.width ∧
    barChars s = List.replicate (filledCountF s) s.config.fill ++
      List.replicate (s.config.width - filledCountF s) s.config.empty ∧
    List.IsInfix (Nat.repr s.current ++ "/" ++ Nat.repr s.total).data
      (renderedLine s).data ∧
    List.IsInfix (Nat.repr (percentValF s) ++ "%").data (renderedLine s).data ∧
    (s.message.isEmpty = false →
      List.IsInfix s.message.data (renderedLine s).data) := by
  refine ⟨rfl, ?_, rfl, ?_, ?_, ?_⟩
  · show (barChars s).length = s.config.width
    exact barChars_length s hc hw
  · refine ⟨("[" : String).data ++ (String.mk (barChars s)).data ++
      ("] " : String).data ++
      List.replicate (3 - (Nat.repr (percentValF s)).length) ' ' ++
      (Nat.repr (percentValF s)).data ++
      ("%" : String).data ++ (" " : String).data,
      (if s.message.isEmpty then [] else (" " : String).data ++ s.message.data),
      ?_⟩
    rw [renderedLine_data]
    simp [String.data_append, List.append_assoc]
  · refine ⟨("[" : String).data ++ (String.mk (barChars s)).data ++
      ("] " : String).data ++
      List.replicate (3 - (Nat.repr (percentValF s)).length) ' ',
      (" " : String).data ++ (Nat.repr s.current).data ++
      ("/" : String).data ++ (Nat.repr s.total).data ++
      (if s.message.isEmpty then [] else (" " : String).data ++ s.message.data),
      ?_⟩
    rw [renderedLine_data]
    simp [String.data_append, List.append_assoc]
  · intro hm
    refine ⟨("[" : String).data ++ (String.mk (barChars s)).data ++
      ("] " : String).data ++
      List.replicate (3 - (Nat.repr (percentValF s)).length) ' ' ++
      (Nat.repr (percentValF s)).data ++
      ("%" : String).data ++ (" " : String).data ++
      (Nat.repr s.current).data ++ ("/" : String).data ++
      (Nat.repr s.total).data ++ (" " : String).data, [], ?_⟩
    rw [renderedLine_data]
    simp [hm, String.data_append, List.append_assoc]

/-- Witness for the amended C4 at `current = 5`, `total = 10`,
`width = 10`, empty message, terminal mode. -/
theorem render_format_amended_witness :
    sampleRunning.current ≤ sampleRunning.total ∧ 1 ≤ sampleRunning.total ∧
    sampleRunning.config.width ≤ 2 ^ 53 ∧
    (renderOutput sampleRunning =
      (if sampleRunning.is_tty then "\r" ++ renderedLine sampleRunning
       else renderedLine sampleRunning ++ "\n") ∧
     (String.mk (barChars sampleRunning)).length = sampleRunning.config.width ∧
     barChars sampleRunning =
       List.replicate (filledCountF sampleRunning) sampleRunning.config.fill ++
       List.replicate
         (sampleRunning.config.width - filledCountF sampleRunning)
         sampleRunning.config.empty ∧
     List.IsInfix
       (Nat.repr sampleRunning.current ++ "/" ++
         Nat.repr sampleRunning.total).data
       (renderedLine sampleRunning).data ∧
     List.IsInfix (Nat.repr (percentValF sampleRunning) ++ "%").data
       (renderedLine sampleRunning).data ∧
     (sampleRunning.message.isEmpty = false →
       List.IsInfix sampleRunning.message.data
         (renderedLine sampleRunning).data)) :=
  ⟨by decide, by decide, by decide,
    render_format_amended sampleRunning (by decide) (by decide) (by decide)⟩
